import Mathlib

/-!
Shallow embedding, in Lean 4, of the tile-addressing, style-classification,
geometry-normalization, cache, and resolution-selection core of the
`rod-animation` map renderer (Rust sources under `src/`), together with
theorems settling the frozen specification claims.

Conventions of the embedding:
* Rust `u32` values are modelled as `Nat`; where wrap-around of a `u32`
  operation matters (the shift in `TileDescr::valid`) the wrap is explicit.
* Rust `f32` arithmetic is modelled over `ℚ`; the claims settled against it
  concern exact algebraic structure (sign of a shoelace sum, piecewise
  definitions with exactly representable breakpoints `0.25`, `0.5`, `0.75`),
  not rounding behaviour.
* A Rust function that can panic is modelled with an `Option` result
  (`none` = panic); fallible (`Result`) code is modelled with an explicit
  success flag.
* External effects of the tile cache (file system, HTTP) are modelled as an
  explicit environment and state threaded through the functions.
-/

namespace RodAnimation

/-! ## Tile addressing (`src/map.rs`, `TileDescr`) -/

/-- `TileDescr` from `src/map.rs`: `{ z: u32, x: u32, y: u32 }`. -/
structure TileDescr where
  z : Nat
  x : Nat
  y : Nat
deriving DecidableEq, Repr

/-- `TileDescr::valid` from `src/map.rs`:
`let n_tiles = 1 << self.z; self.x < n_tiles && self.y < n_tiles`.
All quantities are `u32`; in Rust's release profile the shift amount of a
`u32` shift is masked modulo the bit width, so `1u32 << z` computes
`1 <<< (z % 32)` (in the debug profile a shift by `z ≥ 32` panics instead). -/
def TileDescr.valid (t : TileDescr) : Bool :=
  let n_tiles : Nat := 1 <<< (t.z % 32)
  decide (t.x < n_tiles) && decide (t.y < n_tiles)

/-- /C8 counterexample/ The claimed equivalence
`valid {z,x,y} = true ↔ x < 2^z ∧ y < 2^z` fails at the concrete address
`{z := 32, x := 1, y := 0}`: the `u32` shift `1 << 32` wraps to `1`
(release profile; in the debug profile it panics), so `valid` returns
`false` although `1 < 2^32` and `0 < 2^32`. -/
theorem C8_valid_counterexample :
    TileDescr.valid ⟨32, 1, 0⟩ = false ∧ 1 < 2 ^ 32 ∧ 0 < 2 ^ 32 := by
  refine ⟨by decide, by norm_num, by norm_num⟩

/-- /C8 amended/ For every tile address whose zoom is below the `u32` bit
width 32, `TileDescr::valid` returns `true` iff `x < 2^z` and `y < 2^z`.
(For `z ≥ 32` the `u32` shift `1 << z` wraps — or panics in debug builds —
so the equivalence fails there, see the counterexample.) -/
theorem C8_valid_iff (t : TileDescr) (hz : t.z < 32) :
    t.valid = true ↔ t.x < 2 ^ t.z ∧ t.y < 2 ^ t.z := by
  simp [TileDescr.valid, Nat.mod_eq_of_lt hz, Nat.shiftLeft_eq]

/-- Witness for `C8_valid_iff` at the concrete address `{z := 2, x := 3, y := 0}`. -/
theorem C8_valid_iff_witness :
    (2 : Nat) < 32 ∧ (TileDescr.valid ⟨2, 3, 0⟩ = true ↔ 3 < 2 ^ 2 ∧ 0 < 2 ^ 2) :=
  ⟨by norm_num, C8_valid_iff ⟨2, 3, 0⟩ (by norm_num)⟩

/-! ## Fade / easing functions (`src/main.rs`) -/

/-- `FADE_MIN` from `src/main.rs` (`0.25f32`, exactly representable). -/
def FADE_MIN : ℚ := 1/4

/-- `FADE_MID` from `src/main.rs` (`0.5f32`, exactly representable). -/
def FADE_MID : ℚ := 1/2

/-- `FADE_MAX` from `src/main.rs` (`0.75f32`, exactly representable). -/
def FADE_MAX : ℚ := 3/4

/-- `smooth_step` from `src/main.rs`:
`let t = ((x - edge0) / (edge1 - edge0)).clamp(0.0, 1.0); t * t * (3.0 - t * 2.0)`.
Rust's `clamp(0.0, 1.0)` is `min (max _ 0) 1`. -/
def smooth_step (x edge0 edge1 : ℚ) : ℚ :=
  let t := min (max ((x - edge0) / (edge1 - edge0)) 0) 1
  t * t * (3 - t * 2)

/-- `fade_in_function` from `src/main.rs`. It asserts
`FADE_MIN <= x && x <= FADE_MAX` (panic modelled as `none`); then returns
`1.0` for `x > FADE_MID`, else `smooth_step x FADE_MIN FADE_MID`. -/
def fade_in_function (x : ℚ) : Option ℚ :=
  if FADE_MIN ≤ x ∧ x ≤ FADE_MAX then
    some (if FADE_MID < x then 1 else smooth_step x FADE_MIN FADE_MID)
  else
    none

/-- `fade_out_function` from `src/main.rs`. Same assertion; returns `1.0` for
`x < FADE_MID`, else `1.0 - smooth_step x FADE_MID FADE_MAX`. -/
def fade_out_function (x : ℚ) : Option ℚ :=
  if FADE_MIN ≤ x ∧ x ≤ FADE_MAX then
    some (if x < FADE_MID then 1 else 1 - smooth_step x FADE_MID FADE_MAX)
  else
    none

/-- The clamped interpolation parameter of `smooth_step` lies in `[0, 1]`. -/
lemma smooth_step_t_mem (x edge0 edge1 : ℚ) :
    0 ≤ min (max ((x - edge0) / (edge1 - edge0)) 0) 1 ∧
      min (max ((x - edge0) / (edge1 - edge0)) 0) 1 ≤ 1 := by
  constructor
  · exact le_min (le_max_right _ _) zero_le_one
  · exact min_le_right _ _

/-- The cubic `t * t * (3 - 2 t)` maps `[0,1]` into `[0,1]`. -/
lemma cubic_mem {t : ℚ} (h0 : 0 ≤ t) (h1 : t ≤ 1) :
    0 ≤ t * t * (3 - t * 2) ∧ t * t * (3 - t * 2) ≤ 1 := by
  constructor
  · nlinarith
  · nlinarith [sq_nonneg (1 - t), sq_nonneg t]

/-- `smooth_step` always returns a value in `[0, 1]`. -/
lemma smooth_step_mem (x edge0 edge1 : ℚ) :
    0 ≤ smooth_step x edge0 edge1 ∧ smooth_step x edge0 edge1 ≤ 1 := by
  have h := smooth_step_t_mem x edge0 edge1
  unfold smooth_step
  exact cubic_mem h.1 h.2

/-- /C9/ The fade functions panic (return `none`) exactly outside
`[FADE_MIN, FADE_MAX] = [0.25, 0.75]`; inside that interval they return a
weight in `[0, 1]`; `fade_in_function x = 1` for every `x ≥ 0.5` and
`fade_out_function x = 1` for every `x ≤ 0.5`. -/
theorem C9_fade_function_contract (x : ℚ) :
    ((x < FADE_MIN ∨ FADE_MAX < x) →
      fade_in_function x = none ∧ fade_out_function x = none) ∧
    (FADE_MIN ≤ x → x ≤ FADE_MAX →
      ∃ a b : ℚ, fade_in_function x = some a ∧ fade_out_function x = some b ∧
        0 ≤ a ∧ a ≤ 1 ∧ 0 ≤ b ∧ b ≤ 1 ∧
        (FADE_MID ≤ x → a = 1) ∧ (x ≤ FADE_MID → b = 1)) := by
  constructor
  · intro h
    have hout : ¬ (FADE_MIN ≤ x ∧ x ≤ FADE_MAX) := by
      rcases h with h | h
      · exact fun hc => absurd hc.1 (not_le.mpr h)
      · exact fun hc => absurd hc.2 (not_le.mpr h)
    simp [fade_in_function, fade_out_function, hout]
  · intro h1 h2
    refine ⟨if FADE_MID < x then 1 else smooth_step x FADE_MIN FADE_MID,
      if x < FADE_MID then 1 else 1 - smooth_step x FADE_MID FADE_MAX,
      ?_, ?_, ?_, ?_, ?_, ?_, ?_, ?_⟩
    · simp [fade_in_function, h1, h2]
    · simp [fade_out_function, h1, h2]
    · by_cases hmid : FADE_MID < x <;>
        simp [hmid, (smooth_step_mem x FADE_MIN FADE_MID).1]
    · by_cases hmid : FADE_MID < x <;>
        simp [hmid, (smooth_step_mem x FADE_MIN FADE_MID).2]
    · by_cases hmid : x < FADE_MID
      · simp [hmid]
      · simp only [hmid, if_false]
        linarith [(smooth_step_mem x FADE_MID FADE_MAX).2]
    · by_cases hmid : x < FADE_MID
      · simp [hmid]
      · simp only [hmid, if_false]
        linarith [(smooth_step_mem x FADE_MID FADE_MAX).1]
    · intro hge
      by_cases hmid : FADE_MID < x
      · simp [hmid]
      · have hx : x = FADE_MID := le_antisymm (not_lt.mp hmid) hge
        subst hx
        norm_num [smooth_step, FADE_MIN, FADE_MID]
    · intro hle
      by_cases hmid : x < FADE_MID
      · simp [hmid]
      · have hx : x = FADE_MID := le_antisymm hle (not_lt.mp hmid)
        subst hx
        norm_num [smooth_step, FADE_MID, FADE_MAX]

/-- Witness for `C9_fade_function_contract` at the concrete inputs
`x = 1/10` (outside the band) and `x = 3/5` (inside the band). -/
theorem C9_fade_function_contract_witness :
    (fade_in_function (1/10) = none ∧ fade_out_function (1/10) = none) ∧
    (∃ a b : ℚ, fade_in_function (3/5) = some a ∧ fade_out_function (3/5) = some b ∧
      0 ≤ a ∧ a ≤ 1 ∧ 0 ≤ b ∧ b ≤ 1 ∧
      (FADE_MID ≤ (3/5 : ℚ) → a = 1) ∧ ((3/5 : ℚ) ≤ FADE_MID → b = 1)) :=
  ⟨(C9_fade_function_contract (1/10)).1 (Or.inl (by norm_num [FADE_MIN])),
   (C9_fade_function_contract (3/5)).2 (by norm_num [FADE_MIN]) (by norm_num [FADE_MAX])⟩

/-! ## Geometry normalization (`src/map.rs`, `Path` / `Area`) -/

/-- `Vector` from `src/vec.rs`: a 2D point; `f32` coordinates modelled as `ℚ`. -/
structure Vector where
  x : ℚ
  y : ℚ
deriving DecidableEq, Repr

/-- `Path` from `src/map.rs`: `pub struct Path(pub Vec<Vector>)`. -/
structure Path where
  points : List Vector
deriving DecidableEq, Repr

/-- One summand of the shoelace loop in `Path::get_signed_area_sum`:
`(p_i.x * p_next.y) - (p_next.x * p_i.y)`. -/
def crossTerm (p q : Vector) : ℚ :=
  p.x * q.y - q.x * p.y

/-- `Path::get_signed_area_sum` from `src/map.rs`: returns `0` for fewer than
3 points, otherwise the shoelace sum over indices `0..n` with wrap-around
`(i + 1) % n`. -/
def Path.get_signed_area_sum (p : Path) : ℚ :=
  let n := p.points.length
  if n < 3 then 0
  else ∑ i in Finset.range n,
    crossTerm (p.points.getD i ⟨0, 0⟩) (p.points.getD ((i + 1) % n) ⟨0, 0⟩)

/-- `Path::reverse` from `src/map.rs`: `self.0.reverse()`. -/
def Path.reverse (p : Path) : Path :=
  ⟨p.points.reverse⟩

/-- `Area` from `src/map.rs`: one outer ring plus inner (hole) rings. -/
structure Area where
  outer : Path
  inner : List Path
deriving DecidableEq, Repr

/-- `Area::enforce_winding` from `src/map.rs`: reverses the outer ring when
its signed area sum is negative and each inner ring whose signed area sum is
positive; returns the repaired area together with the `had_flip` flag. -/
def Area.enforce_winding (a : Area) : Area × Bool :=
  let outer_pair :=
    if a.outer.get_signed_area_sum < 0 then (a.outer.reverse, true) else (a.outer, false)
  let inner_results := a.inner.map fun path =>
    if 0 < path.get_signed_area_sum then (path.reverse, true) else (path, false)
  (⟨outer_pair.1, inner_results.map Prod.fst⟩, outer_pair.2 || inner_results.any Prod.snd)

lemma crossTerm_self (a : Vector) : crossTerm a a = 0 := by
  simp [crossTerm]

lemma crossTerm_antisymm (a b : Vector) : crossTerm b a = - crossTerm a b := by
  unfold crossTerm
  ring

/-- Sum of `crossTerm` over the consecutive pairs of the chain `a :: m`. -/
def chainFrom (a : Vector) : List Vector → ℚ
  | [] => 0
  | b :: m => crossTerm a b + chainFrom b m

/-- The closed-cycle shoelace sum of a ring, chaining the last point back to
the first. -/
def cycleSum : List Vector → ℚ
  | [] => 0
  | a :: m => chainFrom a (m ++ [a])

lemma chainFrom_append (m : List Vector) (a x : Vector) :
    chainFrom a (m ++ [x]) = chainFrom a m + crossTerm (m.getLastD a) x := by
  induction m generalizing a with
  | nil => simp [chainFrom]
  | cons b m ih =>
    simp only [List.cons_append, chainFrom, List.append_eq, ih b, List.getLastD_cons]
    ring

lemma chainFrom_rev (m : List Vector) (x y : Vector) :
    chainFrom x (m ++ [y]) = - chainFrom y (m.reverse ++ [x]) := by
  induction m generalizing x with
  | nil => simp [chainFrom, crossTerm_antisymm x y]
  | cons b m ih =>
    simp only [List.cons_append, chainFrom, List.append_eq, ih b, List.reverse_cons]
    rw [chainFrom_append (m.reverse ++ [b]) y x, List.getLastD_concat,
      crossTerm_antisymm b x]
    ring

lemma cycleSum_rotate (t : List Vector) (x : Vector) :
    cycleSum (t ++ [x]) = cycleSum (x :: t) := by
  cases t with
  | nil => rfl
  | cons c s =>
    simp only [List.cons_append, cycleSum, chainFrom, List.append_eq]
    rw [chainFrom_append (s ++ [x]) c c, List.getLastD_concat,
      crossTerm_antisymm c x]
    ring

lemma cycleSum_reverse (l : List Vector) : cycleSum l.reverse = - cycleSum l := by
  cases l with
  | nil => simp [cycleSum]
  | cons a m =>
    rw [List.reverse_cons, cycleSum_rotate m.reverse a]
    show chainFrom a (m.reverse ++ [a]) = - chainFrom a (m ++ [a])
    rw [chainFrom_rev m a a]
    ring

lemma getD_cons_length (m : List Vector) (a d : Vector) :
    (a :: m).getD m.length d = m.getLastD a := by
  induction m generalizing a with
  | nil => rfl
  | cons b m ih =>
    rw [List.length_cons, List.getD_cons_succ, ih b, List.getLastD_cons]

lemma range_sum_chainFrom (m : List Vector) (a d : Vector) :
    ∑ i in Finset.range m.length,
      crossTerm ((a :: m).getD i d) ((a :: m).getD (i + 1) d) = chainFrom a m := by
  induction m generalizing a with
  | nil => simp [chainFrom]
  | cons b m ih =>
    rw [List.length_cons, Finset.sum_range_succ']
    have hsum : ∑ i in Finset.range m.length,
        crossTerm ((a :: b :: m).getD (i + 1) d) ((a :: b :: m).getD (i + 1 + 1) d) =
        ∑ i in Finset.range m.length,
        crossTerm ((b :: m).getD i d) ((b :: m).getD (i + 1) d) :=
      Finset.sum_congr rfl fun i _ => by
        rw [List.getD_cons_succ, List.getD_cons_succ]
    rw [hsum, ih b]
    simp only [List.getD_cons_zero, List.getD_cons_succ, chainFrom]
    ring

/-- For a nonempty point list, the wrap-around indexed shoelace sum of
`Path::get_signed_area_sum` equals `cycleSum`. -/
lemma range_sum_mod (a : Vector) (L : List Vector) (d : Vector) :
    ∑ i in Finset.range (a :: L).length,
      crossTerm ((a :: L).getD i d) ((a :: L).getD ((i + 1) % (a :: L).length) d) =
      cycleSum (a :: L) := by
  rw [List.length_cons, Finset.sum_range_succ]
  have hcongr : ∑ i in Finset.range L.length,
      crossTerm ((a :: L).getD i d) ((a :: L).getD ((i + 1) % (L.length + 1)) d) =
      ∑ i in Finset.range L.length,
      crossTerm ((a :: L).getD i d) ((a :: L).getD (i + 1) d) :=
    Finset.sum_congr rfl fun i hi => by
      rw [Nat.mod_eq_of_lt (by have := Finset.mem_range.mp hi; omega)]
  rw [hcongr, range_sum_chainFrom L a d, Nat.mod_self, List.getD_cons_zero,
    getD_cons_length L a d]
  show chainFrom a L + crossTerm (L.getLastD a) a = chainFrom a (L ++ [a])
  rw [chainFrom_append]

/-- The shoelace loop of `Path::get_signed_area_sum` equals the closed-cycle
sum `cycleSum` of the point list (both are `0` for fewer than 3 points). -/
lemma get_signed_area_sum_eq_cycleSum (p : Path) :
    p.get_signed_area_sum = cycleSum p.points := by
  rcases hp : p.points with _ | ⟨a, _ | ⟨b, _ | ⟨c, m⟩⟩⟩
  · simp [Path.get_signed_area_sum, cycleSum, hp]
  · simp [Path.get_signed_area_sum, cycleSum, hp, chainFrom, crossTerm_self]
  · have h2 : cycleSum [a, b] = 0 := by
      simp [cycleSum, chainFrom, crossTerm_antisymm a b]
    simp [Path.get_signed_area_sum, hp, h2]
  · have hlen : ¬ (a :: b :: c :: m).length < 3 := by
      simp only [List.length_cons]; omega
    simp only [Path.get_signed_area_sum, hp]
    rw [if_neg hlen]
    exact range_sum_mod a (b :: c :: m) ⟨0, 0⟩

/-- Reversing a ring negates its signed area sum. -/
lemma get_signed_area_sum_reverse (p : Path) :
    p.reverse.get_signed_area_sum = - p.get_signed_area_sum := by
  rw [get_signed_area_sum_eq_cycleSum, get_signed_area_sum_eq_cycleSum]
  exact cycleSum_reverse p.points

lemma enforce_winding_fst_outer (a : Area) :
    a.enforce_winding.1.outer =
      if a.outer.get_signed_area_sum < 0 then a.outer.reverse else a.outer := by
  unfold Area.enforce_winding
  by_cases h : a.outer.get_signed_area_sum < 0 <;> simp [h]

lemma enforce_winding_fst_inner (a : Area) :
    a.enforce_winding.1.inner =
      a.inner.map fun p =>
        if 0 < p.get_signed_area_sum then p.reverse else p := by
  unfold Area.enforce_winding
  simp [List.map_map, Function.comp_def, apply_ite]

lemma enforce_winding_flag_iff (a : Area) :
    a.enforce_winding.2 = true ↔
      (a.outer.get_signed_area_sum < 0 ∨
        ∃ p ∈ a.inner, 0 < p.get_signed_area_sum) := by
  unfold Area.enforce_winding
  by_cases h : a.outer.get_signed_area_sum < 0 <;>
    simp [h, List.any_eq_true, apply_ite Prod.snd]

lemma enforce_winding_outer_nonneg (a : Area) :
    0 ≤ a.enforce_winding.1.outer.get_signed_area_sum := by
  rw [enforce_winding_fst_outer]
  by_cases h : a.outer.get_signed_area_sum < 0
  · rw [if_pos h, get_signed_area_sum_reverse]
    linarith
  · rw [if_neg h]
    exact not_lt.mp h

lemma enforce_winding_inner_nonpos (a : Area) :
    ∀ q ∈ a.enforce_winding.1.inner, q.get_signed_area_sum ≤ 0 := by
  rw [enforce_winding_fst_inner]
  intro q hq
  rcases List.mem_map.mp hq with ⟨p, _, rfl⟩
  by_cases h : 0 < p.get_signed_area_sum
  · rw [if_pos h, get_signed_area_sum_reverse]
    linarith
  · rw [if_neg h]
    exact not_lt.mp h

lemma getD_map_lt (f : Path → Path) (l : List Path) (i : Nat) (h : i < l.length)
    (d : Path) : (l.map f).getD i d = f (l.getD i d) := by
  induction l generalizing i with
  | nil => cases h
  | cons p l ih =>
    cases i with
    | zero => rfl
    | succ j =>
      simp only [List.map_cons, List.getD_cons_succ]
      exact ih j (by simpa using h)

/-- `enforce_winding` is a no-op (and reports no flip) on any area whose
outer ring already has nonnegative signed area sum and whose inner rings all
have nonpositive signed area sums. -/
lemma enforce_winding_noop (b : Area)
    (h1 : ¬ b.outer.get_signed_area_sum < 0)
    (h2 : ∀ q ∈ b.inner, ¬ 0 < q.get_signed_area_sum) :
    b.enforce_winding = (b, false) := by
  unfold Area.enforce_winding
  rw [if_neg h1]
  have hmap : b.inner.map
      (fun p => if 0 < p.get_signed_area_sum then (p.reverse, true) else (p, false)) =
      b.inner.map (fun p => (p, false)) :=
    List.map_congr_left fun p hp => if_neg (h2 p hp)
  rw [hmap]
  simp [List.map_map, Function.comp_def]

/-- /C5/ `enforce_winding` reports `true` exactly when it reversed at least
one ring (outer ring with negative signed area sum, or an inner ring with a
positive one), and it is idempotent: run a second time on its own output it
modifies nothing and reports `false`. -/
theorem C5_enforce_winding_idempotent_and_reports (a : Area) :
    (a.enforce_winding.2 = true ↔
      (a.outer.get_signed_area_sum < 0 ∨
        ∃ p ∈ a.inner, 0 < p.get_signed_area_sum)) ∧
    a.enforce_winding.1.enforce_winding = (a.enforce_winding.1, false) := by
  refine ⟨enforce_winding_flag_iff a, ?_⟩
  exact enforce_winding_noop _ (not_lt.mpr (enforce_winding_outer_nonneg a))
    (fun q hq => not_lt.mpr (enforce_winding_inner_nonpos a q hq))

/-- Degenerate triangle used as counterexample data: three collinear points,
signed area sum `0`. -/
def degenerateArea : Area :=
  ⟨⟨[⟨0, 0⟩, ⟨1, 0⟩, ⟨2, 0⟩]⟩, []⟩

/-- /C4 counterexample/ The claim fails on an outer ring of 3 collinear
points: its signed area sum is `0`, `enforce_winding` leaves it unchanged,
and afterwards the outer ring's signed area sum is not strictly positive even
though the ring has 3 points (so it is not exempt). -/
theorem C4_winding_counterexample :
    degenerateArea.outer.points.length = 3 ∧
    degenerateArea.enforce_winding.1.outer = degenerateArea.outer ∧
    ¬ 0 < degenerateArea.enforce_winding.1.outer.get_signed_area_sum := by
  have hS : degenerateArea.outer.get_signed_area_sum = 0 := by
    norm_num [degenerateArea, Path.get_signed_area_sum, Finset.sum_range_succ,
      crossTerm]
  have houter : degenerateArea.enforce_winding.1.outer = degenerateArea.outer := by
    rw [enforce_winding_fst_outer, if_neg (by rw [hS]; exact lt_irrefl 0)]
  refine ⟨rfl, houter, ?_⟩
  rw [houter, hS]
  exact lt_irrefl 0

/-- /C4 amended/ After `enforce_winding`, the outer ring's signed area sum is
nonnegative — strictly positive whenever the original outer ring's signed
area sum is nonzero — and every inner ring's signed area sum is nonpositive —
strictly negative whenever the original inner ring's signed area sum is
nonzero. Rings whose signed area sum is zero (which includes every ring with
fewer than 3 points) are left unmodified. -/
theorem C4_winding_invariant (a : Area) :
    (a.outer.points.length < 3 → a.outer.get_signed_area_sum = 0) ∧
    0 ≤ a.enforce_winding.1.outer.get_signed_area_sum ∧
    (a.outer.get_signed_area_sum ≠ 0 →
      0 < a.enforce_winding.1.outer.get_signed_area_sum) ∧
    (a.outer.get_signed_area_sum = 0 → a.enforce_winding.1.outer = a.outer) ∧
    (∀ q ∈ a.enforce_winding.1.inner, q.get_signed_area_sum ≤ 0) ∧
    a.enforce_winding.1.inner.length = a.inner.length ∧
    (∀ i, i < a.inner.length →
      ((a.inner.getD i ⟨[]⟩).get_signed_area_sum ≠ 0 →
        (a.enforce_winding.1.inner.getD i ⟨[]⟩).get_signed_area_sum < 0) ∧
      ((a.inner.getD i ⟨[]⟩).get_signed_area_sum = 0 →
        a.enforce_winding.1.inner.getD i ⟨[]⟩ = a.inner.getD i ⟨[]⟩)) := by
  refine ⟨?_, enforce_winding_outer_nonneg a, ?_, ?_, enforce_winding_inner_nonpos a, ?_, ?_⟩
  · intro h
    unfold Path.get_signed_area_sum
    rw [if_pos h]
  · intro hne
    rw [enforce_winding_fst_outer]
    by_cases h : a.outer.get_signed_area_sum < 0
    · rw [if_pos h, get_signed_area_sum_reverse]
      linarith
    · rw [if_neg h]
      rcases lt_or_eq_of_le (not_lt.mp h) with h' | h'
      · exact h'
      · exact absurd h'.symm hne
  · intro h0
    rw [enforce_winding_fst_outer, if_neg (by rw [h0]; exact lt_irrefl 0)]
  · rw [enforce_winding_fst_inner, List.length_map]
  · intro i hi
    rw [enforce_winding_fst_inner, getD_map_lt _ _ i hi]
    constructor
    · intro hne
      by_cases h : 0 < (a.inner.getD i ⟨[]⟩).get_signed_area_sum
      · rw [if_pos h, get_signed_area_sum_reverse]
        linarith
      · rw [if_neg h]
        rcases lt_or_eq_of_le (not_lt.mp h) with h' | h'
        · exact h'
        · exact absurd h' hne
    · intro h0
      rw [if_neg (by rw [h0]; exact lt_irrefl 0)]

/-- Demo area for the C4 witness: clockwise outer ring (signed area `-1`),
counter-clockwise inner ring (signed area `+1`); both get reversed. -/
def demoArea : Area :=
  ⟨⟨[⟨0, 0⟩, ⟨0, 1⟩, ⟨1, 0⟩]⟩, [⟨[⟨0, 0⟩, ⟨1, 0⟩, ⟨0, 1⟩]⟩]⟩

/-- Witness for `C4_winding_invariant` at the concrete area `demoArea`. -/
theorem C4_winding_invariant_witness :
    0 ≤ demoArea.enforce_winding.1.outer.get_signed_area_sum ∧
    0 < demoArea.enforce_winding.1.outer.get_signed_area_sum ∧
    (demoArea.enforce_winding.1.inner.getD 0 ⟨[]⟩).get_signed_area_sum < 0 := by
  have h1 : demoArea.outer.get_signed_area_sum = -1 := by
    norm_num [demoArea, Path.get_signed_area_sum, Finset.sum_range_succ, crossTerm]
  have h2 : (demoArea.inner.getD 0 ⟨[]⟩).get_signed_area_sum = 1 := by
    norm_num [demoArea, Path.get_signed_area_sum, Finset.sum_range_succ, crossTerm]
  exact ⟨(C4_winding_invariant demoArea).2.1,
    (C4_winding_invariant demoArea).2.2.1 (by rw [h1]; norm_num),
    ((C4_winding_invariant demoArea).2.2.2.2.2.2 0 (by norm_num [demoArea])).1
      (by rw [h2]; norm_num)⟩

/-! ## Style classifier (`src/map.rs`, `Condition` / `TypeConditions` /
`LayerSorter`) -/

/-- `MyValue` from `src/map.rs`: the tagged feature-property value type,
compared by derived (tag-aware) equality. The `f32`/`f64` payloads of the
`Float`/`Double` tags are modelled as `ℚ`; the classifier claims depend only
on decidable equality of values, not on numeric semantics. -/
inductive MyValue where
  | string : String → MyValue
  | float : ℚ → MyValue
  | double : ℚ → MyValue
  | int : Int → MyValue
  | uint : Nat → MyValue
  | sint : Int → MyValue
  | bool : Bool → MyValue
  | null : MyValue
deriving DecidableEq, Repr

/-- A feature's property map (`HashMap<String, Value>` in `src/map.rs`),
modelled as an association list with `List.lookup` as `get`. -/
abbrev Props := List (String × MyValue)

/-- `LayerStyle` from `src/draw.rs`, reduced to an opaque identity token:
the classifier claims depend only on which style a feature is assigned. -/
abbrev LayerStyle := Nat

/-- `Condition` from `src/map.rs`: one predicate
`{key, values, white_list}`. -/
structure Condition where
  key : String
  values : List MyValue
  white_list : Bool
deriving DecidableEq, Repr

/-- `Condition::apply` from `src/map.rs`: looks the key up in the feature's
property map; if present returns `Some(!(white_list ^ contained))`, if absent
returns `None`. -/
def Condition.apply (c : Condition) (props : Props) : Option Bool :=
  match props.lookup c.key with
  | some val => some (!(xor c.white_list (c.values.contains val)))
  | none => none

/-- `TypeConditions` from `src/map.rs`: one conditional rule of a layer. -/
structure TypeConditions where
  conditions : List Condition
  style : LayerStyle
  min_zoomlevel : Option Nat
deriving DecidableEq, Repr

/-- `TypeConditions::apply` from `src/map.rs`: returns `false` when the zoom
is below `min_zoomlevel`; otherwise loops over the conditions and returns
`false` iff some condition evaluates to `Some(false)` — a condition that
evaluates to `None` (absent key) is skipped by the
`if let Some(b) = filter.apply(props) && !b` pattern. -/
def TypeConditions.apply (tc : TypeConditions) (props : Props) (zoom : Nat) : Bool :=
  if (match tc.min_zoomlevel with
      | some z => decide (zoom < z)
      | none => false) then
    false
  else
    tc.conditions.all fun filter =>
      match filter.apply props with
      | some b => b
      | none => true

/-- `LayerSorter` from `src/map.rs` (the style fields irrelevant to rule
evaluation — `layer_name` — are kept for structural fidelity). -/
structure LayerSorter where
  layer_name : String
  sub_types : List TypeConditions
  fall_back : Option LayerStyle
deriving DecidableEq, Repr

/-- The `for conditions in &self.sub_types` loop of `LayerSorter::apply`:
returns the style of the first matching rule, `none` if no rule matches. -/
def sorterLoop : List TypeConditions → Props → Nat → Option LayerStyle
  | [], _, _ => none
  | tc :: rest, props, zoom =>
    if tc.apply props zoom then some tc.style else sorterLoop rest props zoom

/-- `LayerSorter::apply` from `src/map.rs`: if `sub_types` is empty, returns
`fall_back`; otherwise requires the feature's property map (`let props =
props?;` — `none` propagates) and runs the first-match loop. Note that when
`sub_types` is nonempty and no rule matches, the function returns `None`
without consulting `fall_back`. -/
def LayerSorter.apply (ls : LayerSorter) (props : Option Props) (zoom : Nat) :
    Option LayerStyle :=
  if ls.sub_types.isEmpty then ls.fall_back
  else
    match props with
    | none => none
    | some props => sorterLoop ls.sub_types props zoom

/-- /C1 counterexample/ A rule with a single predicate whose key `"k"` is
absent from the (empty) feature property map *does* match the feature: the
indeterminate predicate is skipped, not treated as a failure — with either
whitelist flag value. -/
theorem C1_absent_key_counterexample :
    (List.lookup "k" ([] : Props) = none) ∧
    TypeConditions.apply ⟨[⟨"k", [MyValue.null], true⟩], 7, none⟩ [] 0 = true ∧
    TypeConditions.apply ⟨[⟨"k", [MyValue.null], false⟩], 7, none⟩ [] 0 = true := by
  refine ⟨rfl, rfl, rfl⟩

/-- Dropping the conditions whose key is absent from the property map does
not change the result of the `TypeConditions::apply` condition loop: a
condition with an absent key contributes `none`, which the loop skips. -/
lemma all_filter_skip_absent (props : Props) (l : List Condition) :
    (l.all fun filter =>
      match filter.apply props with
      | some b => b
      | none => true) =
    ((l.filter fun c => (props.lookup c.key).isSome).all fun filter =>
      match filter.apply props with
      | some b => b
      | none => true) := by
  induction l with
  | nil => rfl
  | cons c rest ih =>
    by_cases hk : (props.lookup c.key).isSome
    · rw [List.filter_cons_of_pos (by simpa using hk), List.all_cons,
        List.all_cons, ih]
    · have habs : props.lookup c.key = none := Option.not_isSome_iff_eq_none.mp hk
      rw [List.filter_cons_of_neg (by simpa using hk), List.all_cons, ih]
      have hc : (match c.apply props with
          | some b => b
          | none => true) = true := by
        simp [Condition.apply, habs]
      rw [hc, Bool.true_and]

/-- /C1 amended/ A predicate whose property key is absent from the feature
map evaluates to `none` and is skipped by rule evaluation: the rule matches
iff it matches with all absent-key predicates removed — regardless of the
predicates' whitelist/blacklist flags, an absent key never fails (nor
satisfies) anything; it is simply ignored. -/
theorem C1_absent_key_skipped (tc : TypeConditions) (props : Props) (zoom : Nat) :
    (∀ c ∈ tc.conditions, props.lookup c.key = none → c.apply props = none) ∧
    TypeConditions.apply tc props zoom =
      TypeConditions.apply
        ⟨tc.conditions.filter fun c => (props.lookup c.key).isSome,
         tc.style, tc.min_zoomlevel⟩ props zoom := by
  constructor
  · intro c _ habs
    simp [Condition.apply, habs]
  · unfold TypeConditions.apply
    rcases tc.min_zoomlevel with _ | z
    · rw [if_neg (by simp), if_neg (by simp)]
      exact all_filter_skip_absent props tc.conditions
    · by_cases hz : zoom < z
      · rw [if_pos (by simp [hz]), if_pos (by simp [hz])]
      · rw [if_neg (by simp [hz]), if_neg (by simp [hz])]
        exact all_filter_skip_absent props tc.conditions

/-- Witness for `C1_absent_key_skipped` at a concrete rule, empty property
map, and zoom `0`. -/
theorem C1_absent_key_skipped_witness :
    Condition.apply ⟨"k", [MyValue.null], true⟩ [] = none ∧
    TypeConditions.apply ⟨[⟨"k", [MyValue.null], true⟩], 7, none⟩ [] 0 =
      TypeConditions.apply
        ⟨[(⟨"k", [MyValue.null], true⟩ : Condition)].filter fun c =>
          (List.lookup c.key ([] : Props)).isSome, 7, none⟩ [] 0 :=
  ⟨(C1_absent_key_skipped ⟨[⟨"k", [MyValue.null], true⟩], 7, none⟩ [] 0).1
      ⟨"k", [MyValue.null], true⟩ (by simp) rfl,
   (C1_absent_key_skipped ⟨[⟨"k", [MyValue.null], true⟩], 7, none⟩ [] 0).2⟩

/-- /C7 counterexample/ A layer whose (nonempty) rule list matches nothing
and which has an unconditional fallback style: `LayerSorter::apply` returns
`None` — the fallback is *not* applied, contrary to the claim. (The single
rule's predicate is a whitelist on key `"k"` with an empty allowed set, so it
evaluates to `Some(false)` on a feature that has `"k"`.) -/
theorem C7_fallback_counterexample :
    LayerSorter.apply ⟨"water", [⟨[⟨"k", [], true⟩], 9, none⟩], some 5⟩
      (some [("k", MyValue.null)]) 0 = none ∧
    (LayerSorter.fall_back ⟨"water", [⟨[⟨"k", [], true⟩], 9, none⟩], some 5⟩) = some 5 ∧
    sorterLoop [⟨[⟨"k", [], true⟩], 9, none⟩] [("k", MyValue.null)] 0 = none := by
  refine ⟨rfl, rfl, rfl⟩

/-- /C7 amended/ Rule evaluation is first-match-wins in list order: with a
nonempty rule list and a present property map, `LayerSorter::apply` returns
the style of the first rule that matches (`List.find?`), and `none` when no
rule matches — the fallback style is consulted *only* when the rule list is
empty, in which case it is returned unconditionally (even when the property
map is absent). -/
theorem C7_first_match_and_fallback (ls : LayerSorter) (zoom : Nat) :
    (ls.sub_types = [] →
      ∀ props : Option Props, LayerSorter.apply ls props zoom = ls.fall_back) ∧
    (ls.sub_types ≠ [] →
      (LayerSorter.apply ls none zoom = none) ∧
      ∀ props : Props, LayerSorter.apply ls (some props) zoom =
        (ls.sub_types.find? fun tc => tc.apply props zoom).map
          fun tc => tc.style) := by
  constructor
  · intro hempty props
    simp [LayerSorter.apply, hempty]
  · intro hne
    have hempty : ¬ ls.sub_types.isEmpty := by
      simpa [List.isEmpty_iff] using hne
    refine ⟨by simp [LayerSorter.apply, hempty], fun props => ?_⟩
    simp only [LayerSorter.apply, hempty, Bool.false_eq_true, if_false]
    induction ls.sub_types with
    | nil => rfl
    | cons tc rest ih =>
      by_cases h : tc.apply props zoom
      · simp [sorterLoop, h, List.find?]
      · simp only [sorterLoop, h, if_false, List.find?_cons,
          Bool.false_eq_true] at *
        simpa [h] using ih

/-- Witness for `C7_first_match_and_fallback`: a concrete sorter with an
empty rule list returns its fallback, and a concrete sorter with one
matching rule returns that rule's style. -/
theorem C7_first_match_and_fallback_witness :
    (LayerSorter.apply ⟨"roads", [], some 3⟩ none 0 = some 3) ∧
    (LayerSorter.apply ⟨"roads", [⟨[], 4, none⟩], some 3⟩ (some []) 0 =
      (([⟨[], 4, none⟩] : List TypeConditions).find? fun tc => tc.apply [] 0).map
        (fun tc => tc.style)) :=
  ⟨(C7_first_match_and_fallback ⟨"roads", [], some 3⟩ 0).1 rfl none,
   ((C7_first_match_and_fallback ⟨"roads", [⟨[], 4, none⟩], some 3⟩ 0).2
      (by simp)).2 []⟩

/-! ## Two-tier tile cache (`src/map/cache.rs`, `MvtGetter`) -/

/-- Raw tile payload bytes (`Vec<u8>`). -/
abbrev Bytes := List Nat

/-- A decoded tile (`MapData`), reduced to an opaque identity token: the
cache claims depend only on which decoded value is stored, not on its
structure. -/
abbrev DecodedTile := Nat

/-- The external world the cache interacts with, as pure oracles:
`net tile` is the response body of the HTTP GET for `tile` (`none` = network
error), `decode tile bytes` is `Reader::new` + `MapData::from_reader`
(`none` = decode error; deterministic in the bytes), and `write_ok tile`
tells whether `File::create` + `write_all` succeeds for the tile's cache
file. -/
structure CacheEnv where
  net : TileDescr → Option Bytes
  decode : TileDescr → Bytes → Option DecodedTile
  write_ok : TileDescr → Bool

/-- The mutable state of `MvtGetter` plus the cache directory:
`mem_cache`/`file_cache` are the struct's two fields, `disk` maps a tile to
the bytes of its on-disk entry (`none` = missing or unreadable). -/
structure CacheState where
  mem_cache : TileDescr → Option DecodedTile
  file_cache : TileDescr → Bool
  disk : TileDescr → Option Bytes

/-- Observable I/O actions of one `load_tile` call. -/
inductive CacheEvent where
  | diskRead
  | netFetch
deriving DecidableEq, Repr

/-- `MvtGetter::get_tile`: non-blocking lookup in the in-memory map only. -/
def get_tile (s : CacheState) (tile : TileDescr) : Option DecodedTile :=
  s.mem_cache tile

/-- `MvtGetter::try_load_from_file` from `src/map/cache.rs`: read the disk
entry (`fs::read`, error = `none`), decode it, and on success insert the
decoded tile into `mem_cache`. Every error propagates before the insert, so
on failure the state is returned unchanged. -/
def try_load_from_file (env : CacheEnv) (s : CacheState) (tile : TileDescr) :
    CacheState × Bool :=
  match s.disk tile with
  | none => (s, false)
  | some data =>
    match env.decode tile data with
    | none => (s, false)
    | some parsed =>
      ({ s with mem_cache := fun t => if t = tile then some parsed else s.mem_cache t },
       true)

/-- The network stretch of `MvtGetter::load_tile` (from the `client.get`
onwards): fetch the bytes, write them to the cache file (`File::create` +
`write_all` before decoding), decode, and only on full success insert into
`file_cache` and `mem_cache`. On a create/write failure the on-disk entry is
left in an unspecified truncated state, modelled as absent. -/
def fetch_from_net (env : CacheEnv) (s : CacheState) (tile : TileDescr) :
    CacheState × Bool :=
  match env.net tile with
  | none => (s, false)
  | some buf =>
    if env.write_ok tile then
      let s1 := { s with disk := fun t => if t = tile then some buf else s.disk t }
      match env.decode tile buf with
      | none => (s1, false)
      | some data =>
        ({ s1 with
            file_cache := fun t => if t = tile then true else s1.file_cache t,
            mem_cache := fun t => if t = tile then some data else s1.mem_cache t },
         true)
    else
      ({ s with disk := fun t => if t = tile then none else s.disk t }, false)

/-- `MvtGetter::load_tile` from `src/map/cache.rs`: returns immediately on an
in-memory hit; else, if the address is in the known-disk set, tries the disk
entry — on disk success returns, on disk failure removes the address from
the known-disk set and falls through to the network fetch; else fetches from
the network directly. The event list records the disk reads and network
fetches the call performs. -/
def load_tile (env : CacheEnv) (s : CacheState) (tile : TileDescr) :
    CacheState × Bool × List CacheEvent :=
  if (s.mem_cache tile).isSome then (s, true, [])
  else if s.file_cache tile then
    match try_load_from_file env s tile with
    | (s1, true) => (s1, true, [CacheEvent.diskRead])
    | (s1, false) =>
      let s2 := { s1 with
        file_cache := fun t => if t = tile then false else s1.file_cache t }
      let r := fetch_from_net env s2 tile
      (r.1, r.2, [CacheEvent.diskRead, CacheEvent.netFetch])
  else
    let r := fetch_from_net env s tile
    (r.1, r.2, [CacheEvent.netFetch])

lemma try_load_fail_state (env : CacheEnv) (s : CacheState) (tile : TileDescr)
    (h : (try_load_from_file env s tile).2 = false) :
    (try_load_from_file env s tile).1 = s := by
  rcases hd : s.disk tile with _ | data
  · simp [try_load_from_file, hd]
  · rcases hdec : env.decode tile data with _ | parsed
    · simp [try_load_from_file, hd, hdec]
    · simp [try_load_from_file, hd, hdec] at h

lemma try_load_success_mem (env : CacheEnv) (s : CacheState) (tile : TileDescr)
    (h : (try_load_from_file env s tile).2 = true) :
    ((try_load_from_file env s tile).1.mem_cache tile).isSome := by
  rcases hd : s.disk tile with _ | data
  · simp [try_load_from_file, hd] at h
  · rcases hdec : env.decode tile data with _ | parsed
    · simp [try_load_from_file, hd, hdec] at h
    · simp [try_load_from_file, hd, hdec]

lemma fetch_fail_untouched (env : CacheEnv) (s : CacheState) (tile : TileDescr)
    (h : (fetch_from_net env s tile).2 = false) :
    (fetch_from_net env s tile).1.mem_cache = s.mem_cache ∧
    (fetch_from_net env s tile).1.file_cache = s.file_cache := by
  rcases hn : env.net tile with _ | buf
  · simp [fetch_from_net, hn]
  · by_cases hw : env.write_ok tile
    · rcases hdec : env.decode tile buf with _ | data
      · simp [fetch_from_net, hn, hw, hdec]
      · simp [fetch_from_net, hn, hw, hdec] at h
    · simp [fetch_from_net, hn, hw]

lemma fetch_success_mem (env : CacheEnv) (s : CacheState) (tile : TileDescr)
    (h : (fetch_from_net env s tile).2 = true) :
    ((fetch_from_net env s tile).1.mem_cache tile).isSome := by
  rcases hn : env.net tile with _ | buf
  · simp [fetch_from_net, hn] at h
  · by_cases hw : env.write_ok tile
    · rcases hdec : env.decode tile buf with _ | data
      · simp [fetch_from_net, hn, hw, hdec] at h
      · simp [fetch_from_net, hn, hw, hdec]
    · simp [fetch_from_net, hn, hw] at h

/-- A `load_tile` call that finds the tile in `mem_cache` returns
immediately: no state change, no disk read, no network fetch. -/
lemma load_tile_hit (env : CacheEnv) (s : CacheState) (tile : TileDescr)
    (h : (s.mem_cache tile).isSome) :
    load_tile env s tile = (s, true, []) := by
  unfold load_tile
  rw [if_pos h]

/-- A successful `load_tile` leaves the tile in `mem_cache`. -/
lemma load_tile_success_mem (env : CacheEnv) (s : CacheState) (tile : TileDescr)
    (h : (load_tile env s tile).2.1 = true) :
    ((load_tile env s tile).1.mem_cache tile).isSome := by
  by_cases hm : (s.mem_cache tile).isSome
  · simp [load_tile, hm]
  · by_cases hf : s.file_cache tile
    · rcases htl : try_load_from_file env s tile with ⟨s1, b⟩
      cases b
      · simp only [load_tile, hm, hf, htl, Bool.false_eq_true, if_false,
          if_true] at h ⊢
        exact fetch_success_mem env _ tile h
      · have := try_load_success_mem env s tile (by rw [htl])
        rw [htl] at this
        simpa [load_tile, hm, hf, htl] using this
    · simp only [load_tile, hm, hf, Bool.false_eq_true, if_false] at h ⊢
      exact fetch_success_mem env s tile h

lemma fetch_success_iff (env : CacheEnv) (s : CacheState) (tile : TileDescr) :
    (fetch_from_net env s tile).2 = true ↔
      ∃ buf data, env.net tile = some buf ∧ env.write_ok tile = true ∧
        env.decode tile buf = some data := by
  rcases hn : env.net tile with _ | buf
  · simp [fetch_from_net, hn]
  · by_cases hw : env.write_ok tile
    · rcases hdec : env.decode tile buf with _ | data
      · simp [fetch_from_net, hn, hw, hdec]
      · simp [fetch_from_net, hn, hw, hdec]
    · simp [fetch_from_net, hn, hw]

/-- /C6/ After a successful `load_tile(addr)`, the address is in the
in-memory map; a second `load_tile(addr)` performs no disk read and no
network fetch (empty event list), changes nothing, returns success, and
`get_tile` yields the identical decoded tile before and after the second
call. -/
theorem C6_load_tile_idempotent (env : CacheEnv) (s : CacheState)
    (tile : TileDescr) (h : (load_tile env s tile).2.1 = true) :
    ((load_tile env s tile).1.mem_cache tile).isSome ∧
    load_tile env (load_tile env s tile).1 tile =
      ((load_tile env s tile).1, true, ([] : List CacheEvent)) ∧
    get_tile (load_tile env (load_tile env s tile).1 tile).1 tile =
      get_tile (load_tile env s tile).1 tile := by
  have hmem := load_tile_success_mem env s tile h
  have hsecond := load_tile_hit env (load_tile env s tile).1 tile hmem
  exact ⟨hmem, hsecond, by rw [hsecond]⟩

/-- Concrete cache data for the C6 witness: the tile is already decoded in
memory, every external oracle fails. -/
def c6Tile : TileDescr := ⟨1, 0, 0⟩

def c6Env : CacheEnv := ⟨fun _ => none, fun _ _ => none, fun _ => false⟩

def c6State : CacheState :=
  ⟨fun t => if t = c6Tile then some 42 else none, fun _ => false, fun _ => none⟩

/-- Witness for `C6_load_tile_idempotent` on a concrete already-loaded tile. -/
theorem C6_load_tile_idempotent_witness :
    ((load_tile c6Env c6State c6Tile).1.mem_cache c6Tile).isSome ∧
    load_tile c6Env (load_tile c6Env c6State c6Tile).1 c6Tile =
      ((load_tile c6Env c6State c6Tile).1, true, ([] : List CacheEvent)) ∧
    get_tile (load_tile c6Env (load_tile c6Env c6State c6Tile).1 c6Tile).1 c6Tile =
      get_tile (load_tile c6Env c6State c6Tile).1 c6Tile :=
  C6_load_tile_idempotent c6Env c6State c6Tile rfl

/-- /C10/ Whenever `load_tile` returns an error, the in-memory map is
completely unchanged by the call — and the tile cannot have been in the
in-memory map beforehand, because then the call would have succeeded. -/
theorem C10_failure_leaves_mem_unchanged (env : CacheEnv) (s : CacheState)
    (tile : TileDescr) (h : (load_tile env s tile).2.1 = false) :
    (load_tile env s tile).1.mem_cache = s.mem_cache ∧
    s.mem_cache tile = none := by
  by_cases hm : (s.mem_cache tile).isSome
  · rw [load_tile_hit env s tile hm] at h
    exact absurd h (by simp)
  · have hmem0 : s.mem_cache tile = none := Option.not_isSome_iff_eq_none.mp hm
    refine ⟨?_, hmem0⟩
    by_cases hf : s.file_cache tile
    · rcases htl : try_load_from_file env s tile with ⟨s1, b⟩
      cases b
      · have hs1 : s1 = s := by
          have := try_load_fail_state env s tile (by rw [htl])
          rwa [htl] at this
        subst hs1
        simp only [load_tile, hmem0, Option.isSome_none, Bool.false_eq_true,
          if_false, hf, if_true, htl] at h ⊢
        exact (fetch_fail_untouched env _ tile h).1
      · simp only [load_tile, hmem0, Option.isSome_none, Bool.false_eq_true,
          if_false, hf, if_true, htl] at h
        exact absurd h (by simp)
    · simp only [load_tile, hmem0, Option.isSome_none, Bool.false_eq_true,
        if_false, hf] at h ⊢
      exact (fetch_fail_untouched env s tile h).1

/-- Concrete cache data for the C10 witness: empty caches and a failing
network, so `load_tile` fails. -/
def c10Tile : TileDescr := ⟨2, 1, 1⟩

def c10Env : CacheEnv := ⟨fun _ => none, fun _ _ => none, fun _ => false⟩

def c10State : CacheState := ⟨fun _ => none, fun _ => false, fun _ => none⟩

/-- Witness for `C10_failure_leaves_mem_unchanged` on a concrete failing
load. -/
theorem C10_failure_leaves_mem_unchanged_witness :
    (load_tile c10Env c10State c10Tile).1.mem_cache = c10State.mem_cache ∧
    c10State.mem_cache c10Tile = none :=
  C10_failure_leaves_mem_unchanged c10Env c10State c10Tile rfl

/-- /C2/ Corruption recovery: when the tile is not in memory, is in the
known-disk set, and its on-disk entry fails to decode, `load_tile` performs
the disk read and then falls through to a network fetch. On a successful
fetch it returns success with the disk entry rewritten to the fetched bytes,
the address (re-)present in the known-disk set, and the decoded tile in the
in-memory map. If the network fails, the call fails with the address evicted
from the known-disk set. The call fails only when the network fetch (or the
subsequent write/decode) fails — the disk failure itself is never surfaced. -/
theorem C2_corruption_recovery (env : CacheEnv) (s : CacheState)
    (tile : TileDescr) (b : Bytes)
    (hmem : s.mem_cache tile = none)
    (hfile : s.file_cache tile = true)
    (hdisk : s.disk tile = some b)
    (hcorrupt : env.decode tile b = none) :
    (load_tile env s tile).2.2 = [CacheEvent.diskRead, CacheEvent.netFetch] ∧
    (∀ buf data, env.net tile = some buf → env.write_ok tile = true →
      env.decode tile buf = some data →
      (load_tile env s tile).2.1 = true ∧
      (load_tile env s tile).1.mem_cache tile = some data ∧
      (load_tile env s tile).1.file_cache tile = true ∧
      (load_tile env s tile).1.disk tile = some buf) ∧
    (env.net tile = none →
      (load_tile env s tile).2.1 = false ∧
      (load_tile env s tile).1.file_cache tile = false) ∧
    ((load_tile env s tile).2.1 = true ↔
      ∃ buf data, env.net tile = some buf ∧ env.write_ok tile = true ∧
        env.decode tile buf = some data) := by
  have htl : try_load_from_file env s tile = (s, false) := by
    simp [try_load_from_file, hdisk, hcorrupt]
  have hload : load_tile env s tile =
      ((fetch_from_net env
          { s with file_cache := fun t => if t = tile then false else s.file_cache t }
          tile).1,
       (fetch_from_net env
          { s with file_cache := fun t => if t = tile then false else s.file_cache t }
          tile).2,
       [CacheEvent.diskRead, CacheEvent.netFetch]) := by
    simp only [load_tile, hmem, Option.isSome_none, Bool.false_eq_true, if_false,
      hfile, if_true, htl]
  refine ⟨by rw [hload], ?_, ?_, ?_⟩
  · intro buf data hn hw hdec
    have hfetch : fetch_from_net env
        { s with file_cache := fun t => if t = tile then false else s.file_cache t }
        tile =
        ({ mem_cache := fun t => if t = tile then some data else s.mem_cache t,
           file_cache := fun t => if t = tile then true else
             (if t = tile then false else s.file_cache t),
           disk := fun t => if t = tile then some buf else s.disk t }, true) := by
      simp [fetch_from_net, hn, hw, hdec]
    rw [hload, hfetch]
    simp
  · intro hn
    have hfetch : fetch_from_net env
        { s with file_cache := fun t => if t = tile then false else s.file_cache t }
        tile =
        ({ s with file_cache := fun t => if t = tile then false else s.file_cache t },
         false) := by
      simp [fetch_from_net, hn]
    rw [hload, hfetch]
    simp
  · rw [hload]
    exact fetch_success_iff env _ tile

/-- Concrete cache data for the C2 witness: a corrupt on-disk entry `[0]`
for the tile, a healthy network returning `[1, 2]`, and a decoder that fails
exactly on `[0]`. -/
def c2Tile : TileDescr := ⟨1, 1, 0⟩

def c2Env : CacheEnv :=
  ⟨fun _ => some [1, 2],
   fun _ bytes => if bytes = [0] then none else some 7,
   fun _ => true⟩

def c2State : CacheState :=
  ⟨fun _ => none, fun _ => true, fun t => if t = c2Tile then some [0] else none⟩

/-- Witness for `C2_corruption_recovery` on the concrete corrupt-disk
scenario: the re-fetch succeeds, rewrites the disk entry, re-inserts the
address into the known-disk set, and stores the decoded tile in memory. -/
theorem C2_corruption_recovery_witness :
    (load_tile c2Env c2State c2Tile).2.2 =
      [CacheEvent.diskRead, CacheEvent.netFetch] ∧
    (load_tile c2Env c2State c2Tile).2.1 = true ∧
    (load_tile c2Env c2State c2Tile).1.mem_cache c2Tile = some 7 ∧
    (load_tile c2Env c2State c2Tile).1.file_cache c2Tile = true ∧
    (load_tile c2Env c2State c2Tile).1.disk c2Tile = some [1, 2] := by
  have h := C2_corruption_recovery c2Env c2State c2Tile [0] rfl rfl rfl rfl
  have h2 := h.2.1 [1, 2] 7 rfl rfl rfl
  exact ⟨h.1, h2.1, h2.2.1, h2.2.2.1, h2.2.2.2⟩

/-! ## Resolution selection and crossfade (`src/main.rs`, `World::get_tiles_at`
/ `World::get_tiles_fixed`; `src/draw.rs`, `Frame::render_background`) -/

/-- `OneOrTwo` from `src/main.rs`. -/
inductive OneOrTwo (α : Type) where
  | one : α → OneOrTwo α
  | two : α → α → OneOrTwo α
deriving DecidableEq, Repr

/-- A continuous view. The source's `ScenePos` stores a center and a zoom and
derives `world_min`/`world_max` through floating-point screen transforms
(`src/draw.rs`); here the two world-space corners are carried as data, the
zoom as an exact rational. -/
structure ScenePos where
  world_min : ℚ × ℚ
  world_max : ℚ × ℚ
  zoom : ℚ

/-- `World::get_tiles_fixed` from `src/main.rs`: scales the view's world
rectangle by `2^zoom`, truncates each corner to `u32` (Rust's saturating
float-to-int cast: negative values clamp to `0`, modelled as
`Int.toNat ∘ Int.floor`, which agrees with truncation for the nonnegative
case and clamps negatives to `0` likewise), and enumerates the inclusive
integer tile range, skipping invalid tiles. -/
def get_tiles_fixed (scene : ScenePos) (zoom : Nat) : List TileDescr :=
  let min_x := (Int.floor (scene.world_min.1 * 2 ^ zoom)).toNat
  let min_y := (Int.floor (scene.world_min.2 * 2 ^ zoom)).toNat
  let max_x := (Int.floor (scene.world_max.1 * 2 ^ zoom)).toNat
  let max_y := (Int.floor (scene.world_max.2 * 2 ^ zoom)).toNat
  (List.range' min_x (max_x + 1 - min_x)).flatMap fun x =>
    (List.range' min_y (max_y + 1 - min_y)).filterMap fun y =>
      if (TileDescr.mk zoom x y).valid then some (TileDescr.mk zoom x y) else none

/-- `World::get_tiles_at` from `src/main.rs`: splits the zoom into floor and
fractional part; at or above floor zoom 14 only level 14 is used; otherwise
the fractional part selects one level (`[0, FADE_MIN]`), two levels
(`(FADE_MIN, FADE_MAX]` — the Rust `match` tries the inclusive range
patterns in order, so `FADE_MIN` itself lands in the first arm), or the next
level (`(FADE_MAX, 1]`). The `unreachable!` arm is modelled as `none`. -/
def get_tiles_at (scene : ScenePos) : Option (OneOrTwo (List TileDescr)) :=
  let floor_zoom : ℤ := ⌊scene.zoom⌋
  let frac_zoom : ℚ := scene.zoom - floor_zoom
  if 14 ≤ floor_zoom.toNat then some (.one (get_tiles_fixed scene 14))
  else if 0 ≤ frac_zoom ∧ frac_zoom ≤ FADE_MIN then
    some (.one (get_tiles_fixed scene floor_zoom.toNat))
  else if FADE_MIN ≤ frac_zoom ∧ frac_zoom ≤ FADE_MAX then
    some (.two (get_tiles_fixed scene floor_zoom.toNat)
      (get_tiles_fixed scene (floor_zoom.toNat + 1)))
  else if FADE_MAX ≤ frac_zoom ∧ frac_zoom ≤ 1 then
    some (.one (get_tiles_fixed scene (floor_zoom.toNat + 1)))
  else none

/-- Rust's `f32::fract`: `self - self.trunc()` (truncation toward zero). -/
def rustFract (q : ℚ) : ℚ :=
  q - (if 0 ≤ q then (⌊q⌋ : ℚ) else (⌈q⌉ : ℚ))

/-- The per-level opacities of `Frame::render_background` from
`src/draw.rs`: with one active level every layer is drawn with opacity
`1.0`; with two active levels the less-detailed level is drawn with
`fade_out_function(zoom.fract())` and the more-detailed level with
`fade_in_function(zoom.fract())` (an opacity of `none` models an assertion
panic inside the fade function). -/
def tiles_with_opacity (scene : ScenePos) :
    Option (OneOrTwo (List TileDescr × Option ℚ)) :=
  match get_tiles_at scene with
  | none => none
  | some (.one tiles) => some (.one (tiles, some 1))
  | some (.two less_detail more_detail) =>
    some (.two (less_detail, fade_out_function (rustFract scene.zoom))
      (more_detail, fade_in_function (rustFract scene.zoom)))

/-- Every tile produced by `get_tiles_fixed scene zoom` is at level `zoom`. -/
lemma get_tiles_fixed_level (scene : ScenePos) (zoom : Nat) :
    ∀ t ∈ get_tiles_fixed scene zoom, t.z = zoom := by
  intro t ht
  simp only [get_tiles_fixed, List.mem_flatMap, List.mem_filterMap] at ht
  rcases ht with ⟨x, _, y, _, hfm⟩
  by_cases hv : (TileDescr.mk zoom x y).valid
  · rw [if_pos hv] at hfm
    cases hfm
    rfl
  · rw [if_neg hv] at hfm
    cases hfm

/-- /C3 amended/ Resolution selection and crossfade weights. For every view
with zoom in `[2, 2.24]` exactly one level (2) is requested and rendered with
weight `1`; for zoom `2.5` levels 2 and 3 are both requested and *each* is
rendered with fade weight exactly `1` (the fade-in ramp ends and the
fade-out ramp starts at the band midpoint `0.5`, so at fractional zoom `0.5`
both weights are `1.0`, in `(0, 1]` but not strictly inside `(0, 1)`); for
zoom `2.9` exactly level 3 is requested with weight `1`. -/
theorem C3_resolution_blending (s : ScenePos) :
    (2 ≤ s.zoom → s.zoom ≤ 56/25 →
      get_tiles_at s = some (.one (get_tiles_fixed s 2)) ∧
      tiles_with_opacity s = some (.one (get_tiles_fixed s 2, some 1)) ∧
      ∀ t ∈ get_tiles_fixed s 2, t.z = 2) ∧
    (s.zoom = 5/2 →
      get_tiles_at s = some (.two (get_tiles_fixed s 2) (get_tiles_fixed s 3)) ∧
      tiles_with_opacity s =
        some (.two (get_tiles_fixed s 2, some 1) (get_tiles_fixed s 3, some 1)) ∧
      (∀ t ∈ get_tiles_fixed s 2, t.z = 2) ∧
      (∀ t ∈ get_tiles_fixed s 3, t.z = 3)) ∧
    (s.zoom = 29/10 →
      get_tiles_at s = some (.one (get_tiles_fixed s 3)) ∧
      tiles_with_opacity s = some (.one (get_tiles_fixed s 3, some 1)) ∧
      ∀ t ∈ get_tiles_fixed s 3, t.z = 3) := by
  refine ⟨?_, ?_, ?_⟩
  · intro hlo hhi
    have hfl : ⌊s.zoom⌋ = 2 :=
      Int.floor_eq_iff.mpr ⟨by push_cast; linarith, by push_cast; linarith⟩
    have hA : get_tiles_at s = some (.one (get_tiles_fixed s 2)) := by
      simp only [get_tiles_at, hfl, Int.toNat_ofNat, Int.cast_ofNat]
      rw [if_neg (by norm_num),
        if_pos ⟨by linarith, by rw [FADE_MIN]; linarith⟩]
      rfl
    exact ⟨hA, by simp only [tiles_with_opacity, hA], get_tiles_fixed_level s 2⟩
  · intro hz
    have hfl : ⌊(5/2 : ℚ)⌋ = 2 :=
      Int.floor_eq_iff.mpr (by constructor <;> norm_num)
    have hA : get_tiles_at s =
        some (.two (get_tiles_fixed s 2) (get_tiles_fixed s 3)) := by
      simp only [get_tiles_at, hz, hfl, Int.toNat_ofNat, Int.cast_ofNat]
      rw [if_neg (by norm_num), if_neg (by rw [FADE_MIN]; norm_num),
        if_pos (by rw [FADE_MIN, FADE_MAX]; constructor <;> norm_num)]
      rfl
    have hfr : rustFract s.zoom = 1/2 := by
      rw [rustFract, hz, if_pos (by norm_num), hfl]
      norm_num
    have hout : fade_out_function (1/2 : ℚ) = some 1 := by
      norm_num [fade_out_function, smooth_step, FADE_MIN, FADE_MID, FADE_MAX]
    have hin : fade_in_function (1/2 : ℚ) = some 1 := by
      norm_num [fade_in_function, smooth_step, FADE_MIN, FADE_MID, FADE_MAX]
    refine ⟨hA, ?_, get_tiles_fixed_level s 2, get_tiles_fixed_level s 3⟩
    simp only [tiles_with_opacity, hA, hfr, hout, hin]
  · intro hz
    have hfl : ⌊(29/10 : ℚ)⌋ = 2 :=
      Int.floor_eq_iff.mpr (by constructor <;> norm_num)
    have hA : get_tiles_at s = some (.one (get_tiles_fixed s 3)) := by
      simp only [get_tiles_at, hz, hfl, Int.toNat_ofNat, Int.cast_ofNat]
      rw [if_neg (by norm_num), if_neg (by rw [FADE_MIN]; norm_num),
        if_neg (by rw [FADE_MIN, FADE_MAX]; norm_num),
        if_pos (by rw [FADE_MAX]; constructor <;> norm_num)]
      rfl
    exact ⟨hA, by simp only [tiles_with_opacity, hA], get_tiles_fixed_level s 3⟩

/-- Concrete view for the C3 counterexample and witness: a degenerate
viewport whose world rectangle is the single point `(0, 0)`, at zoom `2.5`. -/
def c3Scene : ScenePos := ⟨(0, 0), (0, 0), 5/2⟩

/-- /C3 counterexample/ At zoom `2.5` both levels are requested, but each
level's fade weight is exactly `1.0`, which does not lie strictly inside
`(0, 1)` as the claim states. -/
theorem C3_crossfade_counterexample :
    tiles_with_opacity c3Scene =
      some (.two ([⟨2, 0, 0⟩], some 1) ([⟨3, 0, 0⟩], some 1)) ∧
    ¬ ((1 : ℚ) < 1) := by
  have hfl : ⌊(5/2 : ℚ)⌋ = 2 := Int.floor_eq_iff.mpr (by constructor <;> norm_num)
  have hfix2 : get_tiles_fixed c3Scene 2 = [⟨2, 0, 0⟩] := by
    simp [get_tiles_fixed, c3Scene]
    decide
  have hfix3 : get_tiles_fixed c3Scene 3 = [⟨3, 0, 0⟩] := by
    simp [get_tiles_fixed, c3Scene]
    decide
  have hA : get_tiles_at c3Scene =
      some (.two (get_tiles_fixed c3Scene 2) (get_tiles_fixed c3Scene 3)) := by
    simp only [get_tiles_at, show c3Scene.zoom = 5/2 from rfl, hfl,
      Int.toNat_ofNat, Int.cast_ofNat]
    rw [if_neg (by norm_num), if_neg (by rw [FADE_MIN]; norm_num),
      if_pos (by rw [FADE_MIN, FADE_MAX]; constructor <;> norm_num)]
    rfl
  have hfr : rustFract c3Scene.zoom = 1/2 := by
    rw [rustFract, show c3Scene.zoom = 5/2 from rfl, if_pos (by norm_num), hfl]
    norm_num
  have hout : fade_out_function (1/2 : ℚ) = some 1 := by
    norm_num [fade_out_function, smooth_step, FADE_MIN, FADE_MID, FADE_MAX]
  have hin : fade_in_function (1/2 : ℚ) = some 1 := by
    norm_num [fade_in_function, smooth_step, FADE_MIN, FADE_MID, FADE_MAX]
  refine ⟨?_, by norm_num⟩
  simp only [tiles_with_opacity, hA, hfr, hout, hin, hfix2, hfix3]

/-- Witness for `C3_resolution_blending` at the concrete view `c3Scene`
(zoom `2.5`). -/
theorem C3_resolution_blending_witness :
    get_tiles_at c3Scene =
      some (.two (get_tiles_fixed c3Scene 2) (get_tiles_fixed c3Scene 3)) ∧
    tiles_with_opacity c3Scene =
      some (.two (get_tiles_fixed c3Scene 2, some 1)
        (get_tiles_fixed c3Scene 3, some 1)) ∧
    (∀ t ∈ get_tiles_fixed c3Scene 2, t.z = 2) ∧
    (∀ t ∈ get_tiles_fixed c3Scene 3, t.z = 3) :=
  (C3_resolution_blending c3Scene).2.1 rfl

end RodAnimation
